import Mathlib

/-!
Verification of the snapshot codec, diff engine and browser-extension
orchestration of the WASM Instagram Unfollower Tracker.

Identifiers are modelled as their UTF-8 byte sequences (`List Nat`, each
element a byte below 256), buffers as byte lists.  The Rust/WASM core
(`rust_logic/src/lib.rs`, exporting `find_unfollowers` and
`serialize_followers_to_mpack`) is not part of the extension sources, so the
Snapshot Codec (`encode` / `decode`) and the Diff Engine (`find_removed`)
are modelled from the specification (§4, §6, §7).  `handleCheck` is embedded
from `extension/popup.js` and `scrapeFollowers` from
`extension/content_script.js`.
-/

/-- An identifier, as its UTF-8 byte sequence. -/
abbrev Ident := List Nat

/-- An encoded snapshot: a byte buffer. -/
abbrev Buffer := List Nat

/-- Modelled from the spec: §7 `DecodingError` kinds — malformed buffer
(truncated length prefix, length prefix exceeding remaining buffer size,
invalid text bytes); `trailing` covers bytes left over after the announced
entry count has been read. -/
inductive DecodingError where
  | truncatedCount
  | truncatedLength
  | truncatedEntry
  | invalidText
  | trailing
deriving DecidableEq

/-- Modelled from the spec: §7 `EncodingError` — an identifier exceeds the
format's maximum representable length (a `uint32` byte length). -/
inductive EncodingError where
  | identifierTooLong
deriving DecidableEq

/-- Is `b` a UTF-8 continuation byte (`0x80–0xBF`)? -/
def utf8Cont (b : Nat) : Bool := 128 ≤ b && b < 192

/-- Strict UTF-8 validity of a byte sequence (rejects overlong forms,
surrogates and code points above `U+10FFFF`), used by `decode` for the
spec's "invalid text encoding" check (§4.1). -/
def validUtf8 : List Nat → Bool
  | [] => true
  | b :: rest =>
    if b < 128 then validUtf8 rest
    else if 194 ≤ b ∧ b ≤ 223 then
      match rest with
      | c :: r => utf8Cont c && validUtf8 r
      | [] => false
    else if b = 224 then
      match rest with
      | c :: d :: r => (160 ≤ c && c < 192) && utf8Cont d && validUtf8 r
      | _ => false
    else if (225 ≤ b ∧ b ≤ 236) ∨ b = 238 ∨ b = 239 then
      match rest with
      | c :: d :: r => utf8Cont c && utf8Cont d && validUtf8 r
      | _ => false
    else if b = 237 then
      match rest with
      | c :: d :: r => (128 ≤ c && c < 160) && utf8Cont d && validUtf8 r
      | _ => false
    else if b = 240 then
      match rest with
      | c :: d :: e :: r => (144 ≤ c && c < 192) && utf8Cont d && utf8Cont e && validUtf8 r
      | _ => false
    else if 241 ≤ b ∧ b ≤ 243 then
      match rest with
      | c :: d :: e :: r => utf8Cont c && utf8Cont d && utf8Cont e && validUtf8 r
      | _ => false
    else if b = 244 then
      match rest with
      | c :: d :: e :: r => (128 ≤ c && c < 144) && utf8Cont d && utf8Cont e && validUtf8 r
      | _ => false
    else false

/-- Modelled from the spec: §6 — little-endian `uint32` byte serialization of
a length field. -/
def u32le (n : Nat) : List Nat :=
  [n % 256, n / 256 % 256, n / 65536 % 256, n / 16777216 % 256]

/-- Modelled from the spec: §6 — read a little-endian `uint32` from the front
of a buffer; `none` when fewer than four bytes remain. -/
def readU32 : Buffer → Option (Nat × Buffer)
  | b0 :: b1 :: b2 :: b3 :: rest => some (b0 + 256 * (b1 + 256 * (b2 + 256 * b3)), rest)
  | _ => none

/-- Modelled from the spec: §6 — one encoded entry: `byte_length: uint32`
followed by exactly that many bytes of UTF-8 text. -/
def encEntry (id : Ident) : List Nat := u32le id.length ++ id

/-- Modelled from the spec: §6 — the raw wire image of an entry sequence:
`count: uint32` followed by `count` entries. -/
def encodeRaw (entries : List Ident) : Buffer :=
  u32le entries.length ++ (entries.map encEntry).flatten

/-- Lexicographic (byte-wise) sort of identifiers, the canonical entry order
of §6.  `≤` on `List Nat` is Mathlib's lexicographic linear order, which on
byte sequences coincides with lexicographic order of the UTF-8 encoding. -/
def sortIds (l : List Ident) : List Ident := List.insertionSort (· ≤ ·) l

/-- Modelled from the spec: §4.1 `encode` — deduplicate the input sequence
(first-seen), sort lexicographically by UTF-8 byte sequence, and write the
length-prefixed wire format of §6; fails with `EncodingError` only when an
identifier's byte length exceeds the `uint32` maximum. -/
def encode (ids : List Ident) : Except EncodingError Buffer :=
  let snapshot := sortIds ids.dedup
  if snapshot.all fun e => e.length < 4294967296 then
    .ok (encodeRaw snapshot)
  else .error .identifierTooLong

/-- Modelled from the spec: §6 — parse exactly `n` length-prefixed entries,
then require the buffer to be exhausted.  Errors: truncated length prefix,
length prefix exceeding the remaining buffer, invalid UTF-8 text. -/
def decodeEntries : Nat → Buffer → Except DecodingError (List Ident)
  | 0, [] => .ok []
  | 0, _ :: _ => .error .trailing
  | n + 1, buf =>
    match readU32 buf with
    | none => .error .truncatedLength
    | some (len, rest) =>
      if len ≤ rest.length then
        if validUtf8 (rest.take len) then
          match decodeEntries n (rest.drop len) with
          | .ok ids => .ok (rest.take len :: ids)
          | .error e => .error e
        else .error .invalidText
      else .error .truncatedEntry

/-- Modelled from the spec: §4.1 `decode` — the empty buffer decodes to the
empty Snapshot; a non-empty buffer is parsed per §6 (`count` then `count`
entries), malformed input yielding an explicit `DecodingError`.  The parsed
entries are deduplicated when forming the Snapshot (a Snapshot is a set). -/
def decode (buf : Buffer) : Except DecodingError (List Ident) :=
  match buf with
  | [] => .ok []
  | _ :: _ =>
    match readU32 buf with
    | none => .error .truncatedCount
    | some (count, rest) =>
      match decodeEntries count rest with
      | .ok ids => .ok ids.dedup
      | .error e => .error e

/-- Modelled from the spec: §6 — the buffers the format declares well
formed: the empty buffer, or `count: uint32` followed by exactly `count`
length-prefixed UTF-8 entries and nothing else.  A buffer outside this set
is malformed (truncated length prefix, length prefix exceeding the
remaining buffer, invalid text bytes, or stray trailing bytes). -/
def ValidEncoding (buf : Buffer) : Prop :=
  buf = [] ∨ ∃ entries : List Ident, entries.length < 4294967296 ∧
    (∀ e ∈ entries, e.length < 4294967296 ∧ validUtf8 e = true) ∧
    buf = encodeRaw entries

/-- Modelled from the spec: §4.2 `find_removed` — decode the old buffer into
`old_set`, keep the elements absent from the new sequence, and emit them
sorted lexicographically; propagates `DecodingError` from the Codec. -/
def find_removed (newIds : List Ident) (oldEncoded : Buffer) :
    Except DecodingError (List Ident) :=
  match decode oldEncoded with
  | .error e => .error e
  | .ok oldSet => .ok (sortIds (oldSet.filter fun x => decide (x ∉ newIds)))

/-- The inputs `handleCheck` (extension/popup.js) draws from its
environment: whether the active tab is an Instagram page (line 50), the
value stored under `latestFollowersMpack` (`none` = absent, line 57), and
the content-script scrape result (`none` = no result, line 62). -/
structure CheckEnv where
  tab : Bool
  stored : Option Buffer
  scraped : Option (List Ident)

/-- The observable outcome of one `handleCheck` run (extension/popup.js):
which terminal status path was taken, and what was displayed/saved. -/
inductive CheckOutcome where
  | notInstagram
  | scrapeFailed
  | firstRun (saved : Buffer)
  | compared (unfollowers : List Ident) (saved : Buffer)
  | errored
deriving DecidableEq

/-- The byte buffer popup.js line 58 builds from storage: an absent stored
value becomes the empty `Uint8Array`, a present one is used as is. -/
def storedBytes (env : CheckEnv) : Buffer := env.stored.getD []

/-- Embedded from extension/popup.js `handleCheck` (lines 42–97): guard on
the Instagram tab, load the previous buffer (absent ⇒ empty), scrape, bail
out when the scrape yields nothing, save on first run (empty old buffer),
otherwise diff via the WASM core, then re-encode and persist the new list.
A thrown WASM error lands in the `catch` block: nothing is persisted.
The second component is the storage content after the run. -/
def handleCheck (env : CheckEnv) : CheckOutcome × Option Buffer :=
  if env.tab then
    match env.scraped with
    | none => (.scrapeFailed, env.stored)
    | some newFollowers =>
      if newFollowers.isEmpty then (.scrapeFailed, env.stored)
      else if (storedBytes env).isEmpty then
        match encode newFollowers with
        | .error _ => (.errored, env.stored)
        | .ok m => (.firstRun m, some m)
      else
        match find_removed newFollowers (storedBytes env) with
        | .error _ => (.errored, env.stored)
        | .ok unf =>
          match encode newFollowers with
          | .error _ => (.errored, env.stored)
          | .ok m => (.compared unf m, some m)
  else (.notInstagram, env.stored)

/-- JavaScript `String.prototype.trim` whitespace, restricted to the ASCII
bytes (tab, LF, VT, FF, CR, space) — the granularity of the byte model. -/
def isJsWs (b : Nat) : Bool := b = 9 || b = 10 || b = 11 || b = 12 || b = 13 || b = 32

/-- Byte-level model of JavaScript `text.trim()`: strip leading and trailing
whitespace. -/
def jsTrim (l : List Nat) : List Nat :=
  ((l.dropWhile isJsWs).reverse.dropWhile isJsWs).reverse

/-- JavaScript `Set.add` followed by eventual `Array.from`: insertion-ordered,
first occurrence kept. -/
def addToSet (acc : List Ident) (x : Ident) : List Ident :=
  if x ∈ acc then acc else acc ++ [x]

/-- Embedded from extension/content_script.js lines 57–62: one scroll
iteration collects the visible elements' text contents — skipping falsy
(empty) `textContent` — trimmed, into the insertion-ordered set. -/
def collectRound (acc : List Ident) (elems : List (List Nat)) : List Ident :=
  elems.foldl (fun a t => if t.isEmpty then a else addToSet a (jsTrim t)) acc

/-- Embedded from extension/content_script.js `scrapeFollowers`
(lines 32–67): when the scrollable container is missing the scraper returns
`[]`; otherwise it folds the scroll iterations' visible text contents into a
`Set` and returns it as an array.  `rounds` abstracts the DOM text contents
visible at each iteration of the scroll loop. -/
def scrapeFollowers (containerFound : Bool) (rounds : List (List (List Nat))) :
    List Ident :=
  if containerFound then rounds.foldl collectRound [] else []

/-! ### Sanity checks on concrete inputs -/

theorem sanity_decode_empty : decode [] = .ok [] := rfl

theorem sanity_encode_dedups_and_sorts :
    encode [[98], [97], [97]] = .ok [2,0,0,0, 1,0,0,0, 97, 1,0,0,0, 98] := rfl

theorem sanity_decode_two_entries :
    decode [2,0,0,0, 1,0,0,0, 97, 1,0,0,0, 98] = .ok [[97], [98]] := rfl

theorem sanity_truncated_entry_rejected :
    decode [1,0,0,0, 100,0,0,0, 97,98,99,100,101] = .error .truncatedEntry := rfl

theorem sanity_trim : jsTrim [32, 97, 32] = [97] ∧ jsTrim [32] = [] := ⟨rfl, rfl⟩

/-! ### Codec lemmas -/

/-- Reading back a little-endian `uint32` written in front of a buffer
recovers the value and the remainder, for values in `uint32` range. -/
theorem readU32_u32le (n : Nat) (h : n < 4294967296) (r : Buffer) :
    readU32 (u32le n ++ r) = some (n, r) := by
  simp only [u32le, List.cons_append, List.nil_append, readU32, Option.some.injEq,
    Prod.mk.injEq, and_true]
  omega

/-- A successful `readU32` consumed exactly four bytes and combined them
little-endian. -/
theorem readU32_sound (buf : Buffer) (n : Nat) (rest : Buffer)
    (h : readU32 buf = some (n, rest)) :
    ∃ b0 b1 b2 b3, buf = b0 :: b1 :: b2 :: b3 :: rest ∧
      n = b0 + 256 * (b1 + 256 * (b2 + 256 * b3)) := by
  match buf with
  | [] => simp [readU32] at h
  | [_] => simp [readU32] at h
  | [_, _] => simp [readU32] at h
  | [_, _, _] => simp [readU32] at h
  | b0 :: b1 :: b2 :: b3 :: r =>
    simp only [readU32, Option.some.injEq, Prod.mk.injEq] at h
    exact ⟨b0, b1, b2, b3, by rw [h.2], h.1.symm⟩

/-- The `uint32` little-endian digits of a value recombined from four bytes
are those bytes again. -/
theorem u32le_bytes (b0 b1 b2 b3 : Nat) (h0 : b0 < 256) (h1 : b1 < 256)
    (h2 : b2 < 256) (h3 : b3 < 256) :
    u32le (b0 + 256 * (b1 + 256 * (b2 + 256 * b3))) = [b0, b1, b2, b3] := by
  simp only [u32le, List.cons.injEq, and_true]
  refine ⟨by omega, by omega, by omega, by omega⟩

/-- Four bytes combine to a value below `2^32`. -/
theorem u32_combine_lt (b0 b1 b2 b3 : Nat) (h0 : b0 < 256) (h1 : b1 < 256)
    (h2 : b2 < 256) (h3 : b3 < 256) :
    b0 + 256 * (b1 + 256 * (b2 + 256 * b3)) < 4294967296 := by omega

/-- Parsing the wire image of an entry list recovers exactly that list, when
every entry is within the length limit and valid UTF-8. -/
theorem decodeEntries_flatten (entries : List Ident)
    (h : ∀ e ∈ entries, e.length < 4294967296 ∧ validUtf8 e = true) :
    decodeEntries entries.length ((entries.map encEntry).flatten) = .ok entries := by
  induction entries with
  | nil => rfl
  | cons e es ih =>
    obtain ⟨hlen, hval⟩ := h e (List.mem_cons_self e es)
    have hes : ∀ x ∈ es, x.length < 4294967296 ∧ validUtf8 x = true :=
      fun x hx => h x (List.mem_cons_of_mem e hx)
    have harr : ((e :: es).map encEntry).flatten
        = u32le e.length ++ (e ++ (es.map encEntry).flatten) := by
      simp [encEntry, List.append_assoc]
    have htake : (e ++ (es.map encEntry).flatten).take e.length = e :=
      List.take_left e _
    have hdrop : (e ++ (es.map encEntry).flatten).drop e.length =
        (es.map encEntry).flatten := List.drop_left e _
    rw [List.length_cons, harr, decodeEntries]
    simp only [readU32_u32le e.length hlen]
    rw [if_pos (by simp : e.length ≤ (e ++ (es.map encEntry).flatten).length),
      htake, hdrop, if_pos hval, ih hes]

/-- Decoding the wire image of an entry list yields the entry set (the
parsed entries deduplicated). -/
theorem decode_encodeRaw (entries : List Ident)
    (hc : entries.length < 4294967296)
    (h : ∀ e ∈ entries, e.length < 4294967296 ∧ validUtf8 e = true) :
    decode (encodeRaw entries) = .ok entries.dedup := by
  have hstep : decode (encodeRaw entries)
      = match readU32 (u32le entries.length ++ (entries.map encEntry).flatten) with
        | none => .error .truncatedCount
        | some (count, rest) =>
          match decodeEntries count rest with
          | .ok ids => .ok ids.dedup
          | .error e => .error e := rfl
  rw [hstep]
  simp only [readU32_u32le entries.length hc]
  rw [decodeEntries_flatten entries h]

/-- Membership is preserved by the canonical sort. -/
theorem mem_sortIds (l : List Ident) (x : Ident) : x ∈ sortIds l ↔ x ∈ l :=
  (List.perm_insertionSort _ l).mem_iff

/-- The canonical sort of a duplicate-free list is duplicate-free. -/
theorem nodup_sortIds (l : List Ident) (h : l.Nodup) : (sortIds l).Nodup :=
  ((List.perm_insertionSort _ l).nodup_iff).mpr h

/-- The canonical sort is sorted by the lexicographic byte order. -/
theorem sorted_sortIds (l : List Ident) : List.Sorted (· ≤ ·) (sortIds l) :=
  List.sorted_insertionSort _ l

/-- A successful `encode` produced exactly the wire image of the sorted,
deduplicated snapshot, all of whose entries are within the length limit. -/
theorem encode_ok (ids : List Ident) (buf : Buffer) (h : encode ids = .ok buf) :
    buf = encodeRaw (sortIds ids.dedup) ∧
      ∀ e ∈ sortIds ids.dedup, e.length < 4294967296 := by
  simp only [encode] at h
  split at h
  case isTrue hall =>
    refine ⟨(Except.ok.inj h).symm, fun e he => ?_⟩
    have := List.all_eq_true.mp hall e he
    exact of_decide_eq_true this
  case isFalse => exact absurd h (by simp)

/-- The canonical sort preserves length. -/
theorem length_sortIds (l : List Ident) : (sortIds l).length = l.length :=
  (List.perm_insertionSort _ l).length_eq

/-- Central round-trip lemma: a successful `encode` decodes to the sorted
deduplication of the input sequence. -/
theorem decode_encode (S : List Ident) (buf : Buffer)
    (hutf : ∀ id ∈ S, validUtf8 id = true)
    (hcount : S.dedup.length < 4294967296)
    (henc : encode S = .ok buf) :
    decode buf = .ok (sortIds S.dedup) := by
  obtain ⟨hbuf, hlen⟩ := encode_ok S buf henc
  have hmem : ∀ x, x ∈ sortIds S.dedup ↔ x ∈ S := fun x =>
    (mem_sortIds _ x).trans List.mem_dedup
  have hval : ∀ e ∈ sortIds S.dedup, e.length < 4294967296 ∧ validUtf8 e = true :=
    fun e he => ⟨hlen e he, hutf e ((hmem e).1 he)⟩
  have hclen : (sortIds S.dedup).length < 4294967296 := by
    rw [length_sortIds]; exact hcount
  have hnodup : (sortIds S.dedup).Nodup := nodup_sortIds _ (List.nodup_dedup S)
  rw [hbuf, decode_encodeRaw _ hclen hval, hnodup.dedup]

/-- Soundness of the entry parser: a successful parse of `n` entries means
the buffer was exactly the wire image of the returned entries, with every
entry within the length limit and valid UTF-8. -/
theorem decodeEntries_sound (n : Nat) (buf : Buffer) (ids : List Ident)
    (hb : ∀ b ∈ buf, b < 256) (h : decodeEntries n buf = .ok ids) :
    buf = (ids.map encEntry).flatten ∧ ids.length = n ∧
      ∀ e ∈ ids, e.length < 4294967296 ∧ validUtf8 e = true := by
  induction n generalizing buf ids with
  | zero =>
    cases buf with
    | nil =>
      simp only [decodeEntries] at h
      obtain rfl := Except.ok.inj h
      simp
    | cons b bs => exact absurd h (by simp [decodeEntries])
  | succ n ih =>
    rw [decodeEntries] at h
    cases hr : readU32 buf with
    | none => simp [hr] at h
    | some p =>
      obtain ⟨len, rest⟩ := p
      simp only [hr] at h
      split at h
      case isTrue hle =>
        split at h
        case isTrue hv =>
          cases hd : decodeEntries n (rest.drop len) with
          | error e => simp [hd] at h
          | ok ids0 =>
            simp only [hd] at h
            obtain rfl := Except.ok.inj h
            obtain ⟨b0, b1, b2, b3, hbuf, hn⟩ := readU32_sound buf len rest hr
            have hrb : ∀ x ∈ rest, x < 256 := fun x hx =>
              hb x (by rw [hbuf]; simp [hx])
            have hdb : ∀ x ∈ rest.drop len, x < 256 := fun x hx =>
              hrb x (List.drop_subset _ _ hx)
            obtain ⟨hrest, hlen0, hval0⟩ := ih (rest.drop len) ids0 hdb hd
            have h0 : b0 < 256 := hb b0 (by rw [hbuf]; simp)
            have h1 : b1 < 256 := hb b1 (by rw [hbuf]; simp)
            have h2 : b2 < 256 := hb b2 (by rw [hbuf]; simp)
            have h3 : b3 < 256 := hb b3 (by rw [hbuf]; simp)
            have hlt : len < 4294967296 := by
              rw [hn]; exact u32_combine_lt b0 b1 b2 b3 h0 h1 h2 h3
            have htk : (rest.take len).length = len := by
              rw [List.length_take]; exact Nat.min_eq_left hle
            refine ⟨?_, by simp [hlen0], ?_⟩
            · have hflat : ((rest.take len :: ids0).map encEntry).flatten
                  = u32le len ++ rest := by
                simp only [List.map_cons, List.flatten_cons, encEntry, htk]
                rw [← hrest, List.append_assoc, List.take_append_drop]
              rw [hflat, hbuf, hn, u32le_bytes b0 b1 b2 b3 h0 h1 h2 h3]
              rfl
            · intro e he
              rcases List.mem_cons.mp he with rfl | he0
              · exact ⟨by rw [htk]; exact hlt, hv⟩
              · exact hval0 e he0
        case isFalse => simp at h
      case isFalse => simp at h

/-- Soundness of `decode`: a successful decode certifies that the buffer is
well formed per §6 — `decode` never silently accepts a truncated or
otherwise malformed buffer. -/
theorem decode_sound (buf : Buffer) (s : List Ident)
    (hb : ∀ b ∈ buf, b < 256) (h : decode buf = .ok s) : ValidEncoding buf := by
  cases buf with
  | nil => exact Or.inl rfl
  | cons b bs =>
    right
    rw [decode] at h
    cases hr : readU32 (b :: bs) with
    | none => simp [hr] at h
    | some p =>
      obtain ⟨count, rest⟩ := p
      simp only [hr] at h
      cases hd : decodeEntries count rest with
      | error e => simp [hd] at h
      | ok ids =>
        obtain ⟨b0, b1, b2, b3, hbuf, hn⟩ := readU32_sound _ _ _ hr
        have hrb : ∀ x ∈ rest, x < 256 := fun x hx =>
          hb x (by rw [hbuf]; simp [hx])
        obtain ⟨hrest, hlen, hval⟩ := decodeEntries_sound count rest ids hrb hd
        have h0 : b0 < 256 := hb b0 (by rw [hbuf]; simp)
        have h1 : b1 < 256 := hb b1 (by rw [hbuf]; simp)
        have h2 : b2 < 256 := hb b2 (by rw [hbuf]; simp)
        have h3 : b3 < 256 := hb b3 (by rw [hbuf]; simp)
        refine ⟨ids, ?_, hval, ?_⟩
        · rw [hlen, hn]; exact u32_combine_lt b0 b1 b2 b3 h0 h1 h2 h3
        · rw [hbuf]
          unfold encodeRaw
          rw [hlen, hn, u32le_bytes b0 b1 b2 b3 h0 h1 h2 h3, ← hrest]
          rfl

/-! ### Scraper lemmas -/

/-- The invariant the scraper maintains on its accumulated username set:
no duplicates, and every member is the trimmed form of some non-empty
scraped `textContent`. -/
def ScrapeInv (acc : List Ident) : Prop :=
  acc.Nodup ∧ ∀ x ∈ acc, ∃ t, t ≠ [] ∧ x = jsTrim t

/-- Adding a trimmed non-empty text to the set preserves the invariant. -/
theorem scrapeInv_addToSet (acc : List Ident) (t : List Nat)
    (hinv : ScrapeInv acc) (ht : t ≠ []) : ScrapeInv (addToSet acc (jsTrim t)) := by
  unfold addToSet
  split
  · exact hinv
  case isFalse hmem =>
    refine ⟨((List.perm_append_singleton _ _).nodup_iff).mpr
      (List.nodup_cons.mpr ⟨hmem, hinv.1⟩), fun x hx => ?_⟩
    rcases List.mem_append.mp hx with hx | hx
    · exact hinv.2 x hx
    · rw [List.mem_singleton.mp hx]; exact ⟨t, ht, rfl⟩

/-- One scroll iteration's collection preserves the invariant. -/
theorem scrapeInv_collectRound (elems : List (List Nat)) (acc : List Ident)
    (hinv : ScrapeInv acc) : ScrapeInv (collectRound acc elems) := by
  induction elems generalizing acc with
  | nil => exact hinv
  | cons t ts ih =>
    rw [collectRound, List.foldl_cons]
    cases t with
    | nil => exact ih acc hinv
    | cons c cs =>
      exact ih (addToSet acc (jsTrim (c :: cs)))
        (scrapeInv_addToSet acc (c :: cs) hinv (List.cons_ne_nil c cs))

/-- Folding all scroll iterations preserves the invariant. -/
theorem scrapeInv_rounds (rounds : List (List (List Nat))) (acc : List Ident)
    (hinv : ScrapeInv acc) : ScrapeInv (rounds.foldl collectRound acc) := by
  induction rounds generalizing acc with
  | nil => exact hinv
  | cons r rs ih => exact ih (collectRound acc r) (scrapeInv_collectRound r acc hinv)

/-! ### Claim theorems -/

/-- C1: Round-trip law — for every input sequence of valid identifiers
(any order, duplicates allowed, distinct-element count within the `uint32`
format limit), decoding the buffer produced by `encode` succeeds and yields
a snapshot equal to the input as a set: the same members, regardless of the
order and duplicates of the original sequence. -/
theorem codec_roundtrip (S : List Ident) (buf : Buffer)
    (hutf : ∀ id ∈ S, validUtf8 id = true)
    (hcount : S.dedup.length < 4294967296)
    (henc : encode S = .ok buf) :
    ∃ d, decode buf = .ok d ∧ ∀ x, x ∈ d ↔ x ∈ S :=
  ⟨sortIds S.dedup, decode_encode S buf hutf hcount henc,
    fun x => (mem_sortIds _ x).trans List.mem_dedup⟩

/-- C1 witness: the round trip at the concrete unordered, duplicate-laden
input `[b, a, a]`. -/
theorem codec_roundtrip_witness :
    ∃ d, decode [2,0,0,0, 1,0,0,0, 97, 1,0,0,0, 98] = .ok d ∧
      ∀ x, x ∈ d ↔ x ∈ [[98], [97], [97]] :=
  codec_roundtrip [[98], [97], [97]] _ (by decide) (by decide) rfl

/-- C2: Symmetric completeness — for every new sequence and every encoded
old snapshot, `find_removed` returns exactly the set difference old minus
new: a member of the result iff a member of the old sequence absent from
the new one. -/
theorem diff_symmetric_complete (newIds old : List Ident) (buf : Buffer)
    (hutf : ∀ id ∈ old, validUtf8 id = true)
    (hcount : old.dedup.length < 4294967296)
    (henc : encode old = .ok buf) :
    ∃ r, find_removed newIds buf = .ok r ∧
      ∀ x, x ∈ r ↔ (x ∈ old ∧ x ∉ newIds) := by
  have hdec := decode_encode old buf hutf hcount henc
  refine ⟨sortIds ((sortIds old.dedup).filter fun x => decide (x ∉ newIds)),
    by rw [find_removed, hdec], fun x => ?_⟩
  rw [mem_sortIds, List.mem_filter]
  constructor
  · rintro ⟨hx, hdx⟩
    exact ⟨List.mem_dedup.mp ((mem_sortIds _ x).mp hx), of_decide_eq_true hdx⟩
  · rintro ⟨hx, hnx⟩
    exact ⟨(mem_sortIds _ x).mpr (List.mem_dedup.mpr hx), decide_eq_true hnx⟩

/-- C2 witness: the spec's example scenario — old snapshot
`{alice, bob, carol}`, new scrape `[bob, dave, bob]`; the result holds
exactly `alice` and `carol`. -/
theorem diff_symmetric_complete_witness :
    ∃ r, find_removed [[98,111,98], [100,97,118,101], [98,111,98]]
        [3,0,0,0, 5,0,0,0, 97,108,105,99,101, 3,0,0,0, 98,111,98,
         5,0,0,0, 99,97,114,111,108] = .ok r ∧
      ∀ x, x ∈ r ↔ (x ∈ [[97,108,105,99,101], [98,111,98], [99,97,114,111,108]]
        ∧ x ∉ [[98,111,98], [100,97,118,101], [98,111,98]]) :=
  diff_symmetric_complete [[98,111,98], [100,97,118,101], [98,111,98]]
    [[97,108,105,99,101], [98,111,98], [99,97,114,111,108]] _
    (by decide) (by decide) rfl

/-- Sanity check for the spec's example scenario: the removed identifiers
come out sorted, `[alice, carol]`. -/
theorem sanity_example_scenario :
    find_removed [[98,111,98], [100,97,118,101], [98,111,98]]
        [3,0,0,0, 5,0,0,0, 97,108,105,99,101, 3,0,0,0, 98,111,98,
         5,0,0,0, 99,97,114,111,108]
      = .ok [[97,108,105,99,101], [99,97,114,111,108]] := rfl

/-- C3: Empty baseline — `find_removed` on the empty buffer returns the
empty sequence for any new list; and the orchestrator (popup.js lines
70–76) treats an empty old buffer as a first run: it saves the encoded new
list and returns without invoking the diff. -/
theorem diff_empty_baseline (newIds : List Ident) (env : CheckEnv)
    (l : List Ident) (m : Buffer) :
    find_removed newIds [] = .ok [] ∧
      (env.tab = true → env.scraped = some l → l.isEmpty = false →
        storedBytes env = [] → encode l = .ok m →
        handleCheck env = (.firstRun m, some m)) := by
  refine ⟨rfl, fun htab hscr hne hold henc => ?_⟩
  simp [handleCheck, htab, hscr, hne, hold, henc]

/-- C3 witness: the empty baseline at a concrete new list, and a concrete
first run saving the encoded scrape. -/
theorem diff_empty_baseline_witness :
    find_removed [[97]] [] = .ok [] ∧
      handleCheck ⟨true, none, some [[97]]⟩
        = (.firstRun [1,0,0,0, 1,0,0,0, 97], some [1,0,0,0, 1,0,0,0, 97]) :=
  ⟨(diff_empty_baseline [[97]] ⟨true, none, some [[97]]⟩ [[97]]
      [1,0,0,0, 1,0,0,0, 97]).1,
    (diff_empty_baseline [[97]] ⟨true, none, some [[97]]⟩ [[97]]
      [1,0,0,0, 1,0,0,0, 97]).2 rfl rfl rfl rfl rfl⟩

/-- C4: Stable output order — every sequence `find_removed` returns is
sorted by the lexicographic order on identifier byte text, and two calls
with the same inputs return identical results (the engine is a pure
function of its inputs). -/
theorem diff_stable_sorted (newIds : List Ident) (buf : Buffer) (r : List Ident)
    (h : find_removed newIds buf = .ok r) :
    List.Sorted (· ≤ ·) r ∧ find_removed newIds buf = find_removed newIds buf := by
  refine ⟨?_, rfl⟩
  rw [find_removed] at h
  cases hd : decode buf with
  | error e => simp [hd] at h
  | ok s =>
    simp only [hd] at h
    rw [← Except.ok.inj h]
    exact sorted_sortIds _

/-- C4 witness: sortedness of a concrete diff result. -/
theorem diff_stable_sorted_witness :
    List.Sorted (· ≤ ·) [[97,108,105,99,101], [99,97,114,111,108]] ∧
      find_removed [[98,111,98]]
          [3,0,0,0, 5,0,0,0, 97,108,105,99,101, 3,0,0,0, 98,111,98,
           5,0,0,0, 99,97,114,111,108]
        = find_removed [[98,111,98]]
          [3,0,0,0, 5,0,0,0, 97,108,105,99,101, 3,0,0,0, 98,111,98,
           5,0,0,0, 99,97,114,111,108] :=
  diff_stable_sorted [[98,111,98]] _ _ rfl

/-- C5: Encode determinism — two input sequences that are equal as sets
(regardless of ordering and duplicates) encode to byte-identical buffers,
and every successful encoding is the wire image of a lexicographically
sorted, duplicate-free entry sequence. -/
theorem encode_deterministic (l1 l2 : List Ident)
    (hset : ∀ x, x ∈ l1 ↔ x ∈ l2) :
    encode l1 = encode l2 ∧
      ∀ buf, encode l1 = .ok buf → ∃ entries, List.Sorted (· ≤ ·) entries ∧
        entries.Nodup ∧ buf = encodeRaw entries := by
  have hperm : List.Perm l1.dedup l2.dedup :=
    (List.perm_ext_iff_of_nodup (List.nodup_dedup l1) (List.nodup_dedup l2)).mpr
      (fun a => List.mem_dedup.trans ((hset a).trans List.mem_dedup.symm))
  have key : sortIds l1.dedup = sortIds l2.dedup :=
    List.eq_of_perm_of_sorted
      (((List.perm_insertionSort _ _).trans hperm).trans
        (List.perm_insertionSort _ _).symm)
      (sorted_sortIds _) (sorted_sortIds _)
  refine ⟨by simp only [encode, key], fun buf hbuf => ?_⟩
  obtain ⟨h1, _⟩ := encode_ok l1 buf hbuf
  exact ⟨sortIds l1.dedup, sorted_sortIds _, nodup_sortIds _ (List.nodup_dedup l1), h1⟩

/-- C5 witness: `[b, a, a]` and `[a, b]` are equal as sets and encode to
byte-identical buffers. -/
theorem encode_deterministic_witness :
    encode [[98], [97], [97]] = encode [[97], [98]] ∧
      ∀ buf, encode [[98], [97], [97]] = .ok buf →
        ∃ entries, List.Sorted (· ≤ ·) entries ∧
          entries.Nodup ∧ buf = encodeRaw entries :=
  encode_deterministic [[98], [97], [97]] [[97], [98]]
    (by intro x; simp only [List.mem_cons, List.not_mem_nil, or_false]; tauto)

/-- C6: Malformed input rejection — for every byte buffer that is not a
well-formed encoding per §6 (which covers truncated length prefixes, a
length prefix exceeding the remaining buffer, and invalid UTF-8 text
bytes), `decode` returns a `DecodingError` as an explicit result value;
being a total function into `Except`, it can neither panic nor return a
truncated snapshot (by `decode_sound`, success certifies well-formedness). -/
theorem decode_rejects_malformed (buf : Buffer) (hb : ∀ b ∈ buf, b < 256)
    (hmal : ¬ ValidEncoding buf) : ∃ e, decode buf = .error e := by
  cases h : decode buf with
  | error e => exact ⟨e, rfl⟩
  | ok s => exact absurd (decode_sound buf s hb h) hmal

/-- C6 witness: the spec's example of a truncated buffer — one entry whose
length prefix claims 100 bytes while only 5 remain — is rejected with an
explicit `DecodingError`. -/
theorem decode_rejects_malformed_witness :
    ∃ e, decode [1,0,0,0, 100,0,0,0, 97,98,99,100,101] = .error e :=
  decode_rejects_malformed [1,0,0,0, 100,0,0,0, 97,98,99,100,101] (by decide)
    (by
      rintro (habs | ⟨entries, hc, hval, heq⟩)
      · exact absurd habs (by simp)
      · have hok : decode [1,0,0,0, 100,0,0,0, 97,98,99,100,101]
            = .ok entries.dedup := by
          rw [heq]; exact decode_encodeRaw entries hc hval
        rw [show decode [1,0,0,0, 100,0,0,0, 97,98,99,100,101]
            = .error .truncatedEntry from rfl] at hok
        cases hok)

/-- C7: Absent equals empty — the orchestrator turns an absent stored value
into the empty byte buffer (popup.js line 58), so the buffer passed onward
is empty and every downstream outcome is identical to the outcome with an
explicitly stored empty buffer. -/
theorem orchestrator_absent_eq_empty (tab : Bool) (scraped : Option (List Ident)) :
    storedBytes ⟨tab, none, scraped⟩ = [] ∧
      storedBytes ⟨tab, none, scraped⟩ = storedBytes ⟨tab, some [], scraped⟩ ∧
      (handleCheck ⟨tab, none, scraped⟩).1 = (handleCheck ⟨tab, some [], scraped⟩).1 := by
  refine ⟨rfl, rfl, ?_⟩
  cases tab with
  | false => rfl
  | true =>
    cases scraped with
    | none => rfl
    | some l =>
      cases hl : l.isEmpty with
      | true => simp [handleCheck, hl]
      | false =>
        cases he : encode l with
        | error e => simp [handleCheck, hl, he, storedBytes]
        | ok m => simp [handleCheck, hl, he, storedBytes]

/-- C8: Persist-after-compare — on a successful non-first-run check (tab
found, non-empty scrape, non-empty old buffer, diff and re-encode succeed),
`handleCheck` displays the diff result and the stored state after the call
is exactly the encoding of the new identifier list. -/
theorem orchestrator_persist_after_compare (env : CheckEnv) (l u : List Ident)
    (m : Buffer) (htab : env.tab = true) (hscr : env.scraped = some l)
    (hne : l.isEmpty = false) (hold : (storedBytes env).isEmpty = false)
    (hdiff : find_removed l (storedBytes env) = .ok u)
    (henc : encode l = .ok m) :
    handleCheck env = (.compared u m, some m) := by
  simp [handleCheck, htab, hscr, hne, hold, hdiff, henc]

/-- C8 witness: a concrete non-first run — old stored snapshot `{a}`, new
scrape `[b]`; the diff reports `a` and storage ends up holding the encoding
of `[b]`. -/
theorem orchestrator_persist_after_compare_witness :
    handleCheck ⟨true, some [1,0,0,0, 1,0,0,0, 97], some [[98]]⟩
      = (.compared [[97]] [1,0,0,0, 1,0,0,0, 98], some [1,0,0,0, 1,0,0,0, 98]) :=
  orchestrator_persist_after_compare
    ⟨true, some [1,0,0,0, 1,0,0,0, 97], some [[98]]⟩
    [[98]] [[97]] [1,0,0,0, 1,0,0,0, 98] rfl rfl rfl rfl rfl rfl

/-- C9 (amended): every sequence the scraper returns contains no duplicate
identifiers (collection goes through a `Set`), and every element is the
whitespace-trimmed form of some non-empty scraped `textContent` — though,
because truthiness is checked on the untrimmed text, an all-whitespace
`textContent` contributes the empty string, so elements need not be
non-empty. -/
theorem scraper_output_invariant (containerFound : Bool)
    (rounds : List (List (List Nat))) :
    (scrapeFollowers containerFound rounds).Nodup ∧
      ∀ x ∈ scrapeFollowers containerFound rounds, ∃ t, t ≠ [] ∧ x = jsTrim t := by
  cases containerFound with
  | false => exact ⟨List.nodup_nil, by simp [scrapeFollowers]⟩
  | true => exact scrapeInv_rounds rounds [] ⟨List.nodup_nil, by simp⟩

/-- C9 counterexample: with the followers container present and a single
visible element whose `textContent` is one space (truthy, hence not
skipped by the line-59 guard), the scraper's output contains the empty
string — refuting "every element is a non-empty string". -/
theorem scraper_nonempty_cex :
    ¬ ∀ x ∈ scrapeFollowers true [[[32]]], x ≠ [] := by decide

/-- C10: Scrape-failure atomicity — when the tab is found but the scrape
yields no identifiers (no result, or the empty array the content script
returns when the followers container is missing), `handleCheck` returns the
scrape-failed status without invoking the diff and leaves the stored
snapshot unchanged. -/
theorem orchestrator_scrape_failure_atomic (env : CheckEnv)
    (htab : env.tab = true) (hscr : env.scraped = none ∨ env.scraped = some []) :
    handleCheck env = (.scrapeFailed, env.stored) := by
  rcases hscr with h | h <;> simp [handleCheck, htab, h]

/-- C10 witness: a concrete failed scrape over a non-empty stored snapshot
leaves storage untouched. -/
theorem orchestrator_scrape_failure_atomic_witness :
    handleCheck ⟨true, some [1,0,0,0, 1,0,0,0, 97], none⟩
      = (.scrapeFailed, some [1,0,0,0, 1,0,0,0, 97]) :=
  orchestrator_scrape_failure_atomic
    ⟨true, some [1,0,0,0, 1,0,0,0, 97], none⟩ rfl (Or.inl rfl)
